import Mathlib

/-!
Shallow embedding of the whisper-streaming-websocket pipeline:
the transcript accumulator (`transcript_callback` in src/transcript_server.py),
the bounded audio ingest queue and worker loop (src/realtime_transcribe.py),
the broadcast hub (`broadcast_full_transcript`), the per-session message
handler (`handle_client`), and the shutdown drain sequence.
-/

namespace WhisperStream

/-- Whitespace characters removed by Python `str.strip()` (the ASCII ones). -/
def isPySpace (c : Char) : Bool :=
  c = ' ' || c = '\t' || c = '\n' || c = '\r' || c = '\x0b' || c = '\x0c'

/-- Strip leading and trailing whitespace from a character list. -/
def stripChars (l : List Char) : List Char :=
  ((l.dropWhile isPySpace).reverse.dropWhile isPySpace).reverse

/-- Model of Python `str.strip()`. -/
def pyStrip (s : String) : String :=
  ⟨stripChars s.data⟩

/-- `new_text = text.strip() if text else ""` in `transcript_callback`
(src/transcript_server.py line 120): `None` and the empty string are both
falsy in Python, so they produce the empty string. -/
def newTextOf (text : Option String) : String :=
  match text with
  | none => ""
  | some t => if t = "" then "" else pyStrip t

/-- The accumulator update of `transcript_callback`
(src/transcript_server.py lines 117-131): ignore empty or whitespace-only
text; otherwise append with a space separator (and re-strip), or initialize
the transcript when it was empty. -/
def foldTranscript (full : String) (text : Option String) : String :=
  let newText := newTextOf text
  if newText = "" then full
  else if full = "" then newText
  else pyStrip (full ++ " " ++ newText)

/-- Fold a whole sequence of committed spans into a fresh (empty) transcript. -/
def foldAll (spans : List (Option String)) : String :=
  spans.foldl foldTranscript ""

/-- A character list has no leading character satisfying `p`. -/
def NoLead (p : Char → Bool) : List Char → Prop
  | [] => True
  | c :: _ => p c = false

/-- A character list is stripped: no leading and no trailing whitespace. -/
def StrippedChars (l : List Char) : Prop :=
  NoLead isPySpace l ∧ NoLead isPySpace l.reverse

/-- A string is stripped: equal to its own strip. -/
def StrippedS (s : String) : Prop :=
  StrippedChars s.data

theorem noLead_dropWhile (p : Char → Bool) (l : List Char) :
    NoLead p (l.dropWhile p) := by
  induction l with
  | nil => trivial
  | cons c t ih =>
    by_cases h : p c
    · simpa [List.dropWhile_cons, h] using ih
    · simp only [List.dropWhile_cons, h]
      simp only [Bool.not_eq_true] at h
      simpa [NoLead] using h

theorem dropWhile_eq_self_of_noLead (p : Char → Bool) (l : List Char)
    (h : NoLead p l) : l.dropWhile p = l := by
  cases l with
  | nil => rfl
  | cons c t =>
    have h' : p c = false := h
    simp [List.dropWhile_cons, h']

theorem noLead_append_left (p : Char → Bool) (x y : List Char)
    (h : NoLead p (x ++ y)) : NoLead p x := by
  cases x with
  | nil => trivial
  | cons c t => exact h

theorem noLead_append_of_ne_nil (p : Char → Bool) (x y : List Char)
    (h : NoLead p x) (hx : x ≠ []) : NoLead p (x ++ y) := by
  cases x with
  | nil => exact absurd rfl hx
  | cons c t => exact h

theorem strippedChars_stripChars (l : List Char) :
    StrippedChars (stripChars l) := by
  unfold stripChars
  constructor
  · -- the reversed drop result is a prefix of `dropWhile isPySpace l`
    have hsplit :
        (l.dropWhile isPySpace).reverse.takeWhile isPySpace ++
          (l.dropWhile isPySpace).reverse.dropWhile isPySpace =
          (l.dropWhile isPySpace).reverse := List.takeWhile_append_dropWhile _ _
    have hm : l.dropWhile isPySpace =
        ((l.dropWhile isPySpace).reverse.dropWhile isPySpace).reverse ++
          ((l.dropWhile isPySpace).reverse.takeWhile isPySpace).reverse := by
      calc l.dropWhile isPySpace
          = (l.dropWhile isPySpace).reverse.reverse := (List.reverse_reverse _).symm
        _ = ((l.dropWhile isPySpace).reverse.takeWhile isPySpace ++
              (l.dropWhile isPySpace).reverse.dropWhile isPySpace).reverse := by
            rw [hsplit]
        _ = ((l.dropWhile isPySpace).reverse.dropWhile isPySpace).reverse ++
              ((l.dropWhile isPySpace).reverse.takeWhile isPySpace).reverse := by
            rw [List.reverse_append]
    have hnl : NoLead isPySpace (l.dropWhile isPySpace) := noLead_dropWhile _ _
    rw [hm] at hnl
    exact noLead_append_left _ _ _ hnl
  · rw [List.reverse_reverse]
    exact noLead_dropWhile _ _

theorem stripChars_eq_self (l : List Char) (h : StrippedChars l) :
    stripChars l = l := by
  unfold stripChars
  rw [dropWhile_eq_self_of_noLead _ _ h.1, dropWhile_eq_self_of_noLead _ _ h.2,
    List.reverse_reverse]

theorem strippedChars_append_space (a b : List Char)
    (ha : StrippedChars a) (hane : a ≠ []) (hb : StrippedChars b) (hbne : b ≠ []) :
    StrippedChars (a ++ ' ' :: b) := by
  constructor
  · exact noLead_append_of_ne_nil _ _ _ ha.1 hane
  · rw [List.reverse_append, List.reverse_cons]
    rw [List.append_assoc]
    refine noLead_append_of_ne_nil _ _ _ hb.2 ?_
    intro hc
    exact hbne (by simpa using congrArg List.reverse hc)

theorem stripChars_append_space (a b : List Char)
    (ha : StrippedChars a) (hane : a ≠ []) (hb : StrippedChars b) (hbne : b ≠ []) :
    stripChars (a ++ ' ' :: b) = a ++ ' ' :: b :=
  stripChars_eq_self _ (strippedChars_append_space a b ha hane hb hbne)

theorem strippedS_pyStrip (s : String) : StrippedS (pyStrip s) :=
  strippedChars_stripChars s.data

theorem pyStrip_eq_self (s : String) (h : StrippedS s) : pyStrip s = s := by
  unfold pyStrip
  rw [stripChars_eq_self _ h]

theorem strippedS_empty : StrippedS "" := by
  constructor <;> trivial

theorem strippedS_newTextOf (t : Option String) : StrippedS (newTextOf t) := by
  unfold newTextOf
  match t with
  | none => exact strippedS_empty
  | some s =>
    by_cases h : s = ""
    · simp only [h, if_pos rfl]
      exact strippedS_empty
    · simp only [if_neg h]
      exact strippedS_pyStrip s

theorem data_eq_nil_iff (s : String) : s.data = [] ↔ s = "" := by
  constructor
  · intro h
    cases s with
    | mk d => simp_all
  · intro h
    simp [h]

theorem strippedS_foldTranscript (full : String) (t : Option String)
    (h : StrippedS full) : StrippedS (foldTranscript full t) := by
  unfold foldTranscript
  by_cases h1 : newTextOf t = ""
  · simpa [h1] using h
  · by_cases h2 : full = ""
    · simp only [if_neg h1, if_pos h2]
      exact strippedS_newTextOf t
    · simp only [if_neg h1, if_neg h2]
      exact strippedS_pyStrip _

theorem strippedS_foldl (init : String) (spans : List (Option String))
    (h : StrippedS init) : StrippedS (spans.foldl foldTranscript init) := by
  induction spans generalizing init with
  | nil => exact h
  | cons t rest ih =>
    exact ih _ (strippedS_foldTranscript init t h)

theorem strippedS_foldAll (spans : List (Option String)) :
    StrippedS (foldAll spans) :=
  strippedS_foldl "" spans strippedS_empty

theorem foldTranscript_append (full : String) (t : Option String)
    (hfull : StrippedS full) (h1 : newTextOf t ≠ "") (h2 : full ≠ "") :
    foldTranscript full t = full ++ " " ++ newTextOf t := by
  unfold foldTranscript
  simp only [if_neg h1, if_neg h2]
  have hdata : (full ++ " " ++ newTextOf t).data =
      full.data ++ ' ' :: (newTextOf t).data := by
    simp [String.data_append]
  have hstripped : StrippedChars (full.data ++ ' ' :: (newTextOf t).data) := by
    refine strippedChars_append_space _ _ hfull ?_ (strippedS_newTextOf t) ?_
    · intro hc
      exact h2 ((data_eq_nil_iff full).mp hc)
    · intro hc
      exact h1 ((data_eq_nil_iff _).mp hc)
  apply pyStrip_eq_self
  unfold StrippedS
  rw [hdata]
  exact hstripped

theorem foldAll_append_single (spans : List (Option String)) (txt : Option String) :
    foldAll (spans ++ [txt]) = foldTranscript (foldAll spans) txt := by
  unfold foldAll
  rw [List.foldl_append]
  rfl

theorem foldTranscript_data_isPre (full : String) (t : Option String)
    (h : StrippedS full) : full.data <+: (foldTranscript full t).data := by
  by_cases h1 : newTextOf t = ""
  · unfold foldTranscript
    simp [h1]
  · by_cases h2 : full = ""
    · subst h2
      exact List.nil_prefix
    · rw [foldTranscript_append full t h h1 h2]
      refine ⟨' ' :: (newTextOf t).data, ?_⟩
      simp [String.data_append]

/-- C1: the accumulator fold strips the incoming span text, ignores it when
the strip is empty, initializes an empty transcript, and otherwise appends
with a single space; folding "Hello", "world", "" into a fresh accumulator
yields "Hello world". -/
theorem fold_step_spec (spans : List (Option String)) (txt : Option String) :
    (newTextOf txt = "" → foldTranscript (foldAll spans) txt = foldAll spans)
    ∧ (newTextOf txt ≠ "" → foldAll spans = "" →
        foldTranscript (foldAll spans) txt = newTextOf txt)
    ∧ (newTextOf txt ≠ "" → foldAll spans ≠ "" →
        foldTranscript (foldAll spans) txt = foldAll spans ++ " " ++ newTextOf txt)
    ∧ foldAll [some "Hello", some "world", some ""] = "Hello world" := by
  refine ⟨?_, ?_, ?_, by decide⟩
  · intro h
    simp [foldTranscript, h]
  · intro h1 h2
    simp [foldTranscript, h1, h2]
  · intro h1 h2
    exact foldTranscript_append _ _ (strippedS_foldAll spans) h1 h2

theorem fold_step_spec_witness :
    foldTranscript (foldAll [some "Hello"]) (some " world ") =
      foldAll [some "Hello"] ++ " " ++ newTextOf (some " world ") :=
  (fold_step_spec [some "Hello"] (some " world ")).2.2.1 (by decide) (by decide)

/-- C2: over any sequence of folds starting from the fresh transcript, one
more fold never rewrites earlier content (the old transcript stays a prefix),
never shrinks the length, and an empty or whitespace-only span leaves the
transcript unchanged byte-for-byte. -/
theorem transcript_monotone (spans : List (Option String)) (txt : Option String) :
    (foldAll spans).data <+: (foldAll (spans ++ [txt])).data
    ∧ (foldAll spans).length ≤ (foldAll (spans ++ [txt])).length
    ∧ (newTextOf txt = "" → foldAll (spans ++ [txt]) = foldAll spans) := by
  have hpre : (foldAll spans).data <+: (foldAll (spans ++ [txt])).data := by
    rw [foldAll_append_single]
    exact foldTranscript_data_isPre _ _ (strippedS_foldAll spans)
  refine ⟨hpre, hpre.length_le, ?_⟩
  intro h
  rw [foldAll_append_single]
  simp [foldTranscript, h]

theorem transcript_monotone_witness :
    foldAll ([some "a"] ++ [some "   "]) = foldAll [some "a"] :=
  (transcript_monotone [some "a"] (some "   ")).2.2 (by decide)

/-- C8: the accumulator is deterministic — folding the same sequence of
committed spans into two fresh accumulators yields the same final
transcript string. -/
theorem fold_deterministic (spans1 spans2 : List (Option String))
    (h : spans1 = spans2) : foldAll spans1 = foldAll spans2 := by
  rw [h]

theorem fold_deterministic_witness :
    foldAll [some "Hello", some "world"] = foldAll [some "Hello", some "world"] :=
  fold_deterministic [some "Hello", some "world"] [some "Hello", some "world"] rfl

/-- C9: after every fold, the canonical transcript is equal to its own strip
(no leading or trailing whitespace), for every state reachable from the
empty transcript. -/
theorem transcript_self_stripped (spans : List (Option String)) :
    pyStrip (foldAll spans) = foldAll spans :=
  pyStrip_eq_self _ (strippedS_foldAll spans)

/-- C10: a fold whose span text is absent (`None`) is a no-op: it is treated
as empty text and the transcript is unchanged (the embedding is a total
function, so no exception arises). -/
theorem fold_none_noop (full : String) : foldTranscript full none = full := by
  simp [foldTranscript, newTextOf]

/-! ## The bounded ingest queue (src/realtime_transcribe.py) -/

/-- `audio_queue = queue.Queue(maxsize=5)` (src/realtime_transcribe.py line 179). -/
def audioQueueMaxsize : Nat := 5

/-- `audio_queue.put_nowait(chunk)` wrapped in `try/except queue.Full: pass`
(src/realtime_transcribe.py lines 203-208): when the queue is full the
incoming frame is silently dropped and no error is raised. -/
def enqueueDrop (maxsize : Nat) (q : List α) (frame : α) : List α :=
  if q.length < maxsize then q ++ [frame] else q

/-- Operations on the ingest queue: the audio callback's non-blocking put and
the worker's get (which removes the oldest retained frame). -/
inductive QueueOp (α : Type) where
  | put (frame : α)
  | get
  deriving DecidableEq

/-- Run a sequence of queue operations from a given queue state. -/
def runQueueOpsFrom (maxsize : Nat) (q : List α) : List (QueueOp α) → List α
  | [] => q
  | QueueOp.put f :: rest => runQueueOpsFrom maxsize (enqueueDrop maxsize q f) rest
  | QueueOp.get :: rest => runQueueOpsFrom maxsize q.tail rest

/-- Run a sequence of queue operations from the empty queue. -/
def runQueueOps (maxsize : Nat) (ops : List (QueueOp α)) : List α :=
  runQueueOpsFrom maxsize [] ops

theorem length_enqueueDrop_le (maxsize : Nat) (q : List α) (f : α)
    (h : q.length ≤ maxsize) : (enqueueDrop maxsize q f).length ≤ maxsize := by
  unfold enqueueDrop
  by_cases hlt : q.length < maxsize
  · simp only [if_pos hlt, List.length_append, List.length_cons, List.length_nil]
    omega
  · simpa [hlt] using h

theorem length_runQueueOpsFrom_le (maxsize : Nat) (q : List α)
    (ops : List (QueueOp α)) (h : q.length ≤ maxsize) :
    (runQueueOpsFrom maxsize q ops).length ≤ maxsize := by
  induction ops generalizing q with
  | nil => exact h
  | cons op rest ih =>
    cases op with
    | put f => exact ih _ (length_enqueueDrop_le maxsize q f h)
    | get =>
      refine ih _ (le_trans ?_ h)
      rw [List.length_tail]
      exact Nat.sub_le _ _

theorem runQueueOpsFrom_puts (maxsize : Nat) (q : List α) (frames : List α)
    (h : q.length ≤ maxsize) :
    runQueueOpsFrom maxsize q (frames.map QueueOp.put) =
      q ++ frames.take (maxsize - q.length) := by
  induction frames generalizing q with
  | nil => simp [runQueueOpsFrom]
  | cons f fs ih =>
    simp only [List.map_cons, runQueueOpsFrom]
    by_cases hlt : q.length < maxsize
    · have hq' : (enqueueDrop maxsize q f).length ≤ maxsize :=
        length_enqueueDrop_le maxsize q f h
      rw [ih _ hq']
      have hlen : (enqueueDrop maxsize q f) = q ++ [f] := by
        simp [enqueueDrop, hlt]
      rw [hlen]
      have hsub : maxsize - (q ++ [f]).length = maxsize - q.length - 1 := by
        simp [List.length_append]
        omega
      rw [hsub]
      have htake : (f :: fs).take (maxsize - q.length) =
          f :: fs.take (maxsize - q.length - 1) := by
        have : ∃ k, maxsize - q.length = k + 1 := ⟨maxsize - q.length - 1, by omega⟩
        obtain ⟨k, hk⟩ := this
        simp [hk]
      rw [htake]
      simp
    · have heq : q.length = maxsize := le_antisymm h (not_lt.mp hlt)
      have hdrop : enqueueDrop maxsize q f = q := by
        simp [enqueueDrop, hlt]
      rw [hdrop, ih _ h]
      simp [heq]

/-- C3: the ingest queue never exceeds its capacity (5 by default) under any
operation sequence; a put onto a full queue drops the incoming frame and
leaves the queue untouched (no error — the model is a total function); and
for any sequence of puts from empty, the retained frames are exactly the
first `maxsize` frames in FIFO arrival order. -/
theorem ingest_queue_bounded (ops : List (QueueOp α)) (q : List α) (f : α)
    (frames : List α) :
    (runQueueOps audioQueueMaxsize ops).length ≤ audioQueueMaxsize
    ∧ (q.length = audioQueueMaxsize → enqueueDrop audioQueueMaxsize q f = q)
    ∧ runQueueOps audioQueueMaxsize (frames.map QueueOp.put) =
        frames.take audioQueueMaxsize := by
  refine ⟨?_, ?_, ?_⟩
  · exact length_runQueueOpsFrom_le _ _ _ (Nat.zero_le _)
  · intro h
    simp [enqueueDrop, h]
  · unfold runQueueOps
    rw [runQueueOpsFrom_puts _ _ _ (Nat.zero_le _)]
    simp

theorem ingest_queue_bounded_witness :
    enqueueDrop audioQueueMaxsize [0, 1, 2, 3, 4] 9 = [0, 1, 2, 3, 4] :=
  (ingest_queue_bounded ([] : List (QueueOp Nat)) [0, 1, 2, 3, 4] 9 []).2.1 (by decide)

/-! ## The broadcast hub (`broadcast_full_transcript`, src/transcript_server.py) -/

/-- What happens when one subscriber's queued send is awaited: it completes
in time, the connection turns out closed, it exceeds the 100 ms timeout, or
some other exception is raised (src/transcript_server.py lines 88-103). -/
inductive SendOutcome where
  | ok
  | connClosed
  | timedOut
  | errored
  deriving DecidableEq

/-- A registered WebSocket connection together with how its next send behaves. -/
structure Subscriber where
  id : Nat
  outcome : SendOutcome
  deriving DecidableEq

/-- The per-subscriber send timeout, in milliseconds:
`asyncio.wait_for(task, timeout=0.1)` (src/transcript_server.py line 99). -/
def sendTimeoutMs : Nat := 100

/-- The JSON object built by `broadcast_full_transcript`
(src/transcript_server.py lines 78-83): keys `type`, `mode`, `text` (the
`timestamp` is left abstract); `final` is `none` because the broadcast
message carries no `final` key. -/
structure TranscriptMsg where
  type : String
  mode : String
  text : String
  final : Option Bool
  deriving DecidableEq

/-- The full-transcript broadcast message for a given text. -/
def fullTranscriptMsg (t : String) : TranscriptMsg :=
  ⟨"transcript", "full", t, none⟩

/-- A subscriber's send completes successfully within the timeout. -/
def sendOk (s : Subscriber) : Bool :=
  s.outcome = SendOutcome.ok

/-- `broadcast_full_transcript(full_text)` (src/transcript_server.py lines
69-107): no-op on an empty subscriber set; otherwise every subscriber is
attempted, those whose send fails, raises, or times out are collected in
`disconnected` and discarded from the set, and the others receive the
message. Returns (surviving subscribers, deliveries made). -/
def broadcastFullTranscript (subs : List Subscriber) (fullText : String) :
    List Subscriber × List (Nat × TranscriptMsg) :=
  if subs.isEmpty then (subs, [])
  else (subs.filter sendOk,
    (subs.filter sendOk).map fun s => (s.id, fullTranscriptMsg fullText))

/-- C5: each subscriber is attempted under the fixed 100 ms timeout; every
subscriber whose send fails is out of the subscriber set by the end of the
call, every healthy subscriber still receives the message, a subsequent
publish delivers only to survivors of the first, and publishing with no
subscribers is a no-op. -/
theorem broadcast_evicts_failed (subs : List Subscriber) (t t2 : String)
    (s : Subscriber) :
    sendTimeoutMs = 100
    ∧ (s ∈ subs → sendOk s = false → s ∉ (broadcastFullTranscript subs t).1)
    ∧ (s ∈ subs → sendOk s = true →
        (s.id, fullTranscriptMsg t) ∈ (broadcastFullTranscript subs t).2)
    ∧ (∀ d ∈ (broadcastFullTranscript (broadcastFullTranscript subs t).1 t2).2,
        ∃ s2 ∈ (broadcastFullTranscript subs t).1, d.1 = s2.id)
    ∧ broadcastFullTranscript [] t = ([], []) := by
  refine ⟨rfl, ?_, ?_, ?_, rfl⟩
  · intro hmem hbad hsurv
    have hempty : subs.isEmpty = false := by
      cases subs with
      | nil => cases hmem
      | cons a l => rfl
    rw [broadcastFullTranscript, hempty] at hsurv
    simp only [Bool.false_eq_true, if_false] at hsurv
    have := (List.mem_filter.mp hsurv).2
    rw [hbad] at this
    cases this
  · intro hmem hok
    have hempty : subs.isEmpty = false := by
      cases subs with
      | nil => cases hmem
      | cons a l => rfl
    rw [broadcastFullTranscript, hempty]
    simp only [Bool.false_eq_true, if_false]
    exact List.mem_map_of_mem _ (List.mem_filter.mpr ⟨hmem, hok⟩)
  · intro d hd
    rw [broadcastFullTranscript] at hd
    by_cases hempty : (broadcastFullTranscript subs t).1.isEmpty
    · rw [if_pos hempty] at hd
      cases hd
    · rw [if_neg hempty] at hd
      obtain ⟨s2, hs2, hds⟩ := List.mem_map.mp hd
      exact ⟨s2, (List.mem_filter.mp hs2).1, by rw [← hds]⟩

theorem broadcast_evicts_failed_witness :
    (⟨2, SendOutcome.timedOut⟩ : Subscriber) ∉
      (broadcastFullTranscript [⟨1, SendOutcome.ok⟩, ⟨2, SendOutcome.timedOut⟩] "hi").1 :=
  (broadcast_evicts_failed [⟨1, SendOutcome.ok⟩, ⟨2, SendOutcome.timedOut⟩] "hi" "hi"
    ⟨2, SendOutcome.timedOut⟩).2.1 (by decide) (by decide)

/-! ## The per-session message handler (`handle_client`, src/transcript_server.py) -/

/-- An incoming WebSocket message as `handle_client` sees it after
`json.loads` (src/transcript_server.py lines 167-173): a JSON object with an
optional `type` field, a well-formed JSON value that is not an object, or
text that fails to parse (`json.JSONDecodeError`). -/
inductive ClientMsg where
  | objMsg (typeField : Option String)
  | nonObjMsg
  | badJson
  deriving DecidableEq

/-- A reply the session handler can send. -/
inductive SessionReply where
  | pong
  deriving DecidableEq

/-- One iteration of `handle_client`'s message loop
(src/transcript_server.py lines 167-179), returning the replies sent and
whether the session stays open. A JSON object of type `ping` gets one
`pong`; any other JSON object and any unparseable message are ignored; a
well-formed non-object JSON value makes `data.get` raise `AttributeError`,
which is not caught inside the loop, so the handler exits and the session is
unregistered. -/
def handleMessage : ClientMsg → List SessionReply × Bool
  | ClientMsg.objMsg t =>
      if t = some "ping" then ([SessionReply.pong], true) else ([], true)
  | ClientMsg.nonObjMsg => ([], false)
  | ClientMsg.badJson => ([], true)

/-- C6 counterexample: a well-formed JSON message that is not an object
(e.g. the bare number `5`) is not a ping, yet it does change the session
state — the handler terminates and the session is unregistered — refuting
"any message of any other type is accepted and produces no reply and no
state change". -/
theorem ping_pong_counterexample :
    ClientMsg.nonObjMsg ≠ ClientMsg.objMsg (some "ping")
    ∧ handleMessage ClientMsg.nonObjMsg ≠ ([], true) := by
  decide

/-- C6 amended: a well-formed JSON object of type `ping` elicits exactly one
`pong` (independent of transcript activity); any other JSON object and any
unparseable message produce no reply and no state change; but a well-formed
JSON message that is not an object terminates the session. -/
theorem ping_pong_amended (t : Option String) :
    handleMessage (ClientMsg.objMsg (some "ping")) = ([SessionReply.pong], true)
    ∧ (t ≠ some "ping" → handleMessage (ClientMsg.objMsg t) = ([], true))
    ∧ handleMessage ClientMsg.badJson = ([], true)
    ∧ handleMessage ClientMsg.nonObjMsg = ([], false) := by
  refine ⟨by decide, ?_, by decide, by decide⟩
  intro h
  simp [handleMessage, h]

theorem ping_pong_amended_witness :
    handleMessage (ClientMsg.objMsg (some "status")) = ([], true) :=
  (ping_pong_amended (some "status")).2.1 (by decide)

/-! ## The transcription worker and the shutdown drain (src/realtime_transcribe.py) -/

/-- The recognition engine as the worker sees it: per frame,
`insert_audio_chunk` followed by `process_iter` either raises (the error
branch) or yields the text of the committed span (possibly empty), and
`finish()` yields the final text (src/realtime_transcribe.py lines 218-220
and 295). -/
structure EngineModel (α : Type) where
  processFrame : α → Except String String
  finalText : String

/-- Observable pipeline events: a frame finishing processing (`task_done`),
the engine's `finish()` call, and a scheduled broadcast. -/
inductive PipeEvent (α : Type) where
  | processed (f : α)
  | finalized
  | published (msg : TranscriptMsg)
  deriving DecidableEq

def isProcessedEvent : PipeEvent α → Bool
  | PipeEvent.processed _ => true
  | _ => false

def isFinalizedEvent : PipeEvent α → Bool
  | PipeEvent.finalized => true
  | _ => false

def isPublishedEvent : PipeEvent α → Bool
  | PipeEvent.published _ => true
  | _ => false

/-- `transcript_callback` with its broadcast made explicit
(src/transcript_server.py lines 109-149): empty or whitespace-only text
returns without touching the transcript or broadcasting; otherwise the
transcript is updated and one broadcast of the updated full transcript is
scheduled. -/
def transcriptCallback (α : Type) (full : String) (text : Option String) :
    String × List (PipeEvent α) :=
  if newTextOf text = "" then (full, [])
  else (foldTranscript full text,
    [PipeEvent.published (fullTranscriptMsg (foldTranscript full text))])

/-- One iteration of `process_audio_worker`'s loop body for one dequeued
frame (src/realtime_transcribe.py lines 210-259): engine errors are caught
and the frame is skipped; a non-empty result text is handed to the
callback; `task_done` marks the frame processed in every branch. -/
def workerStepEvents (eng : EngineModel α) (full : String) (f : α) :
    String × List (PipeEvent α) :=
  match eng.processFrame f with
  | Except.error _ => (full, [PipeEvent.processed f])
  | Except.ok text =>
      if text = "" then (full, [PipeEvent.processed f])
      else
        let c := transcriptCallback α full (some text)
        (c.1, c.2 ++ [PipeEvent.processed f])

/-- The worker draining a list of frames in FIFO order. -/
def drainRun (eng : EngineModel α) (full : String) :
    List α → String × List (PipeEvent α)
  | [] => (full, [])
  | f :: rest =>
      let s := workerStepEvents eng full f
      let r := drainRun eng s.1 rest
      (r.1, s.2 ++ r.2)

/-- The shutdown sequence of `realtime_transcribe_sounddevice`'s `finally`
block (src/realtime_transcribe.py lines 287-322): `audio_queue.join()` lets
the worker process every queued frame, then `online.finish()` runs, and if
the final text is truthy the callback is invoked once more with it. -/
def shutdownDrain (eng : EngineModel α) (queued : List α) (full : String) :
    String × List (PipeEvent α) :=
  let w := drainRun eng full queued
  if eng.finalText = "" then (w.1, w.2 ++ [PipeEvent.finalized])
  else
    let c := transcriptCallback α w.1 (some eng.finalText)
    (c.1, w.2 ++ PipeEvent.finalized :: c.2)

/-- C7: when the engine raises on a frame, the error is caught: the
transcript is unchanged by that frame, no broadcast is emitted for it, and
the worker continues with the remaining frames exactly as if the failed
frame had merely been marked processed. -/
theorem engine_error_skips_frame (eng : EngineModel α) (full : String) (f : α)
    (rest : List α) (e : String) (h : eng.processFrame f = Except.error e) :
    (workerStepEvents eng full f).1 = full
    ∧ drainRun eng full (f :: rest) =
        ((drainRun eng full rest).1,
          PipeEvent.processed f :: (drainRun eng full rest).2) := by
  constructor
  · simp [workerStepEvents, h]
  · simp [drainRun, workerStepEvents, h]

theorem engine_error_skips_frame_witness :
    drainRun (EngineModel.mk
        (fun (n : Nat) => if n = 0 then Except.error "boom" else Except.ok "hi") "")
        "" [0, 1] =
      ((drainRun (EngineModel.mk
          (fun (n : Nat) => if n = 0 then Except.error "boom" else Except.ok "hi") "")
          "" [1]).1,
        PipeEvent.processed 0 :: (drainRun (EngineModel.mk
          (fun (n : Nat) => if n = 0 then Except.error "boom" else Except.ok "hi") "")
          "" [1]).2) :=
  (engine_error_skips_frame
    (EngineModel.mk
      (fun (n : Nat) => if n = 0 then Except.error "boom" else Except.ok "hi") "")
    "" 0 [1] "boom" rfl).2

theorem takeWhile_append_of_all {β : Type} (p : β → Bool) (xs ys : List β)
    (h : ∀ x ∈ xs, p x = true) :
    (xs ++ ys).takeWhile p = xs ++ ys.takeWhile p := by
  induction xs with
  | nil => simp
  | cons a t ih =>
    have ha : p a = true := h a (List.mem_cons_self a t)
    simp only [List.cons_append, List.takeWhile_cons, ha, if_pos]
    rw [ih fun x hx => h x (List.mem_cons_of_mem a hx)]

theorem dropWhile_append_of_all {β : Type} (p : β → Bool) (xs ys : List β)
    (h : ∀ x ∈ xs, p x = true) :
    (xs ++ ys).dropWhile p = ys.dropWhile p := by
  induction xs with
  | nil => simp
  | cons a t ih =>
    have ha : p a = true := h a (List.mem_cons_self a t)
    simp only [List.cons_append, List.dropWhile_cons, ha, if_pos]
    exact ih fun x hx => h x (List.mem_cons_of_mem a hx)

theorem transcriptCallback_events_published (full : String) (t : Option String) :
    ∀ e ∈ (transcriptCallback α full t).2, isPublishedEvent e = true := by
  unfold transcriptCallback
  by_cases h : newTextOf t = ""
  · simp [h]
  · simp [h, isPublishedEvent]

theorem workerStepEvents_no_finalized (eng : EngineModel α) (full : String) (f : α) :
    ∀ e ∈ (workerStepEvents eng full f).2, isFinalizedEvent e = false := by
  intro e he
  rcases hpf : eng.processFrame f with msg | text
  · simp [workerStepEvents, hpf] at he
    simp [he, isFinalizedEvent]
  · by_cases ht : text = ""
    · simp [workerStepEvents, hpf, ht] at he
      simp [he, isFinalizedEvent]
    · simp [workerStepEvents, hpf, ht] at he
      rcases he with hc | hp
      · have := transcriptCallback_events_published full (some text) e hc
        cases e with
        | processed g => cases this
        | finalized => cases this
        | published m => rfl
      · simp [hp, isFinalizedEvent]

theorem countP_transcriptCallback_processed (full : String) (t : Option String) :
    ((transcriptCallback α full t).2.countP isProcessedEvent) = 0 := by
  rw [List.countP_eq_zero]
  intro e he
  have := transcriptCallback_events_published full t e he
  cases e with
  | processed g => cases this
  | finalized => cases this
  | published m => simp [isProcessedEvent]

theorem workerStepEvents_processed_count (eng : EngineModel α) (full : String) (f : α) :
    ((workerStepEvents eng full f).2.countP isProcessedEvent) = 1 := by
  rcases hpf : eng.processFrame f with msg | text
  · simp [workerStepEvents, hpf, List.countP_cons, isProcessedEvent]
  · by_cases ht : text = ""
    · simp [workerStepEvents, hpf, ht, List.countP_cons, isProcessedEvent]
    · simp [workerStepEvents, hpf, ht, List.countP_append, List.countP_cons,
        countP_transcriptCallback_processed, isProcessedEvent]

theorem drainRun_no_finalized (eng : EngineModel α) (full : String) (frames : List α) :
    ∀ e ∈ (drainRun eng full frames).2, isFinalizedEvent e = false := by
  induction frames generalizing full with
  | nil => intro e he; cases he
  | cons f rest ih =>
    intro e he
    simp only [drainRun, List.mem_append] at he
    cases he with
    | inl hs => exact workerStepEvents_no_finalized eng full f e hs
    | inr hr => exact ih _ e hr

theorem drainRun_processed_count (eng : EngineModel α) (full : String) (frames : List α) :
    ((drainRun eng full frames).2.countP isProcessedEvent) = frames.length := by
  induction frames generalizing full with
  | nil => rfl
  | cons f rest ih =>
    simp only [drainRun, List.countP_append, List.length_cons]
    rw [workerStepEvents_processed_count, ih]
    omega

/-- C4 amended: on shutdown with frames still queued, every queued frame is
processed before `finish()` is invoked, `finish()` is invoked exactly once;
and if the final text is non-empty after stripping, exactly one additional
publish occurs after finalize, carrying the full transcript updated with the
final text as an ordinary full-mode broadcast (no final tag: the message's
`final` field is `none`). -/
theorem shutdown_drain_amended (eng : EngineModel α) (queued : List α) :
    (((shutdownDrain eng queued "").2.takeWhile fun e => !isFinalizedEvent e).countP
        isProcessedEvent) = queued.length
    ∧ ((shutdownDrain eng queued "").2.countP isFinalizedEvent) = 1
    ∧ (∀ e ∈ ((shutdownDrain eng queued "").2.dropWhile fun e => !isFinalizedEvent e).tail,
        isProcessedEvent e = false)
    ∧ (pyStrip eng.finalText ≠ "" →
        ((shutdownDrain eng queued "").2.dropWhile fun e => !isFinalizedEvent e).tail =
          [PipeEvent.published (fullTranscriptMsg (shutdownDrain eng queued "").1)]) := by
  have hw_all : ∀ e ∈ (drainRun eng "" queued).2,
      (!isFinalizedEvent e) = true := by
    intro e he
    rw [drainRun_no_finalized eng "" queued e he]
    rfl
  have hw_count := drainRun_processed_count eng "" queued
  have hw_fin : ((drainRun eng "" queued).2.countP isFinalizedEvent) = 0 := by
    rw [List.countP_eq_zero]
    intro e he
    simp [drainRun_no_finalized eng "" queued e he]
  by_cases hf : eng.finalText = ""
  · have htr : (shutdownDrain eng queued "").2 =
        (drainRun eng "" queued).2 ++ [PipeEvent.finalized] := by
      simp [shutdownDrain, hf]
    refine ⟨?_, ?_, ?_, ?_⟩
    · rw [htr, takeWhile_append_of_all _ _ _ hw_all]
      simp [List.takeWhile_cons, isFinalizedEvent, hw_count]
    · rw [htr, List.countP_append, hw_fin]
      simp [List.countP_cons, isFinalizedEvent]
    · intro e he
      rw [htr, dropWhile_append_of_all _ _ _ hw_all] at he
      simp [List.dropWhile_cons, isFinalizedEvent] at he
    · intro h
      exact absurd (by rw [hf]; rfl) h
  · have htr : (shutdownDrain eng queued "").2 =
        (drainRun eng "" queued).2 ++ PipeEvent.finalized ::
          (transcriptCallback α (drainRun eng "" queued).1 (some eng.finalText)).2 := by
      simp [shutdownDrain, hf]
    have hst : (shutdownDrain eng queued "").1 =
        (transcriptCallback α (drainRun eng "" queued).1 (some eng.finalText)).1 := by
      simp [shutdownDrain, hf]
    have hc_pub := transcriptCallback_events_published (α := α)
      (drainRun eng "" queued).1 (some eng.finalText)
    refine ⟨?_, ?_, ?_, ?_⟩
    · rw [htr, takeWhile_append_of_all _ _ _ hw_all]
      simp [List.takeWhile_cons, isFinalizedEvent, hw_count]
    · rw [htr, List.countP_append, hw_fin]
      have hc0 : ((transcriptCallback α (drainRun eng "" queued).1
          (some eng.finalText)).2.countP isFinalizedEvent) = 0 := by
        rw [List.countP_eq_zero]
        intro e he
        have := hc_pub e he
        cases e with
        | processed g => cases this
        | finalized => cases this
        | published m => simp [isFinalizedEvent]
      simp [List.countP_cons, isFinalizedEvent, hc0]
    · intro e he
      rw [htr, dropWhile_append_of_all _ _ _ hw_all] at he
      simp only [List.dropWhile_cons, isFinalizedEvent, Bool.not_true,
        Bool.false_eq_true, if_false, List.tail_cons] at he
      have := hc_pub e he
      cases e with
      | processed g => cases this
      | finalized => cases this
      | published m => rfl
    · intro h
      have hnt : newTextOf (some eng.finalText) = pyStrip eng.finalText := by
        simp [newTextOf, hf]
      have hc2 : (transcriptCallback α (drainRun eng "" queued).1
          (some eng.finalText)).2 =
          [PipeEvent.published (fullTranscriptMsg
            (foldTranscript (drainRun eng "" queued).1 (some eng.finalText)))] := by
        rw [transcriptCallback, if_neg (by rw [hnt]; exact h)]
      have hc1 : (transcriptCallback α (drainRun eng "" queued).1
          (some eng.finalText)).1 =
          foldTranscript (drainRun eng "" queued).1 (some eng.finalText) := by
        rw [transcriptCallback, if_neg (by rw [hnt]; exact h)]
      rw [htr, dropWhile_append_of_all _ _ _ hw_all]
      simp only [List.dropWhile_cons, isFinalizedEvent, Bool.not_true,
        Bool.false_eq_true, if_false, List.tail_cons]
      rw [hc2, hst, hc1]

theorem shutdown_drain_amended_witness :
    (((shutdownDrain (EngineModel.mk (fun (_ : Nat) => Except.ok "hi") "bye")
        [0] "").2.dropWhile fun e => !isFinalizedEvent e).tail) =
      [PipeEvent.published (fullTranscriptMsg
        (shutdownDrain (EngineModel.mk (fun (_ : Nat) => Except.ok "hi") "bye")
          [0] "").1)] :=
  (shutdown_drain_amended
    (EngineModel.mk (fun (_ : Nat) => Except.ok "hi") "bye") [0]).2.2.2 (by decide)

/-- C4 counterexample: an engine whose `finish()` yields the non-empty text
`" "` (a single space). The claim as stated promises one additional publish
carrying that text, but the callback strips it to nothing and returns
without broadcasting: no publish at all happens after finalize. -/
theorem shutdown_final_publish_counterexample :
    (EngineModel.mk (fun (_ : Nat) => Except.ok "hello") " ").finalText ≠ ""
    ∧ (((shutdownDrain (EngineModel.mk (fun (_ : Nat) => Except.ok "hello") " ")
          [0] "").2.dropWhile fun e => !isFinalizedEvent e).tail = []) := by
  decide
